import Mathlib

/-!
Shallow embedding of the change8-action repository (two TypeScript source
files: the manifest parsers and the API/orchestrator module) in Lean 4.

JavaScript strings are modelled as Lean `String` (a wrapper around
`List Char`); the handful of JS string primitives the code uses
(`trim`, `split`, `toLowerCase`, `startsWith`, `endsWith`, `substring`)
are given explicit `List Char` based models below so that every
definition is executable and kernel-reducible.  Network calls (`fetch`)
are modelled by an explicit oracle (`Api`) of pure response outcomes,
and `JSON.parse` of a package.json document by an explicit
`String → Option PkgDoc` argument; exceptions are modelled with
`Except`/`Option`.
-/

/-! ## JS string primitives -/

/-- JS whitespace characters relevant to the sources (ASCII subset of `\s`). -/
def isJsWs (c : Char) : Bool :=
  c = ' ' || c = '\t' || c = '\n' || c = '\r' || c = '\x0b' || c = '\x0c'

/-- Model of `String.prototype.trim`. -/
def jsTrim (s : String) : String :=
  ⟨((s.data.dropWhile isJsWs).reverse.dropWhile isJsWs).reverse⟩

/-- Model of `content.split('\n')` on the character list. -/
def splitOnNl : List Char → List (List Char)
  | [] => [[]]
  | c :: rest =>
    if c = '\n' then [] :: splitOnNl rest
    else
      match splitOnNl rest with
      | h :: t => (c :: h) :: t
      | [] => [[c]]

/-- Lines of a string, as in `content.split('\n')`. -/
def jsLines (s : String) : List String := (splitOnNl s.data).map (fun l => ⟨l⟩)

/-- Model of `String.prototype.toLowerCase` (ASCII letters, as the sources use). -/
def jsToLower (s : String) : String := ⟨s.data.map Char.toLower⟩

/-- Model of `String.prototype.startsWith`. -/
def jsStartsWith (s p : String) : Bool := p.data.isPrefixOf s.data

/-- Model of `String.prototype.endsWith`. -/
def jsEndsWith (s suf : String) : Bool := suf.data.isSuffixOf s.data

/-- Model of `String.prototype.substring(0, n)`. -/
def jsSubstringTo (s : String) (n : Nat) : String := ⟨s.data.take n⟩

/-- Model of `String.prototype.length` (code-unit count, modelled as chars). -/
def jsLen (s : String) : Nat := s.data.length

/-! ## JS object (string-keyed record) primitives -/

/-- Value of key `k` in an object given by its (dedup'd) entry list. -/
def lookupVal (m : List (String × String)) (k : String) : Option String :=
  (m.find? (fun p => p.1 == k)).map Prod.snd

/-- Last value assigned to key `k` in a list of assignments. -/
def lastVal (m : List (String × String)) (k : String) : Option String :=
  ((m.filter (fun p => p.1 == k)).map Prod.snd).getLast?

/-- Keys in first-occurrence order. -/
def dedupKeys : List String → List String
  | [] => []
  | k :: rest => k :: (dedupKeys rest).filter (fun x => x ≠ k)

/-- Entries of the JS object built by performing the given assignments in
order: keys in first-occurrence order, each with its last assigned value.
This models both repeated `obj[k] = v` assignment and object spread. -/
def objEntries (l : List (String × String)) : List (String × String) :=
  (dedupKeys (l.map Prod.fst)).filterMap (fun k => (lastVal l k).map (fun v => (k, v)))

/-- Model of JS `a || b` on an optional string (`undefined`/`""` are falsy). -/
def jsOr (a : Option String) (b : String) : String :=
  match a with
  | some s => if s = "" then b else s
  | none => b

/-! ## Data model (src/parsers.ts) -/

inductive Ecosystem where
  | npm
  | pypi
  deriving DecidableEq

structure DependencyChange where
  package : String
  fromVersion : String
  toVersion : String
  ecosystem : Ecosystem
  deriving DecidableEq

/-! ## requirements.txt parser -/

/-- Character class `[a-zA-Z0-9_-]`. -/
def isNameChar (c : Char) : Bool := c.isAlpha || c.isDigit || c = '_' || c = '-'

/-- Character class `[=~<>!]` (also `[><=~!]` in the pyproject regex). -/
def isSepChar (c : Char) : Bool := c = '=' || c = '~' || c = '<' || c = '>' || c = '!'

/-- Character class `[0-9.]`. -/
def isVerChar (c : Char) : Bool := c.isDigit || c = '.'

/-- Model of `trimmed.match(/^([a-zA-Z0-9_-]+)\s*([=~<>!]+)\s*([0-9.]+)/)`,
returning the three capture groups.  The three character classes are
pairwise disjoint and disjoint from whitespace, so the greedy spans below
are exactly the regex semantics. -/
def reqLineMatch (l : List Char) : Option (String × String × String) :=
  let name := l.takeWhile isNameChar
  let r1 := l.dropWhile isNameChar
  if name.isEmpty then none else
  let r2 := r1.dropWhile isJsWs
  let sep := r2.takeWhile isSepChar
  let r3 := r2.dropWhile isSepChar
  if sep.isEmpty then none else
  let r4 := r3.dropWhile isJsWs
  let ver := r4.takeWhile isVerChar
  if ver.isEmpty then none else some (⟨name⟩, ⟨sep⟩, ⟨ver⟩)

/-- One iteration of the line loop in `parseReqLines`: skip blank, `#`- and
`-`-prefixed lines, otherwise apply the requirement regex and record
`(lowercased name, version)`. -/
def parseReqLine (line : String) : Option (String × String) :=
  let trimmed := jsTrim line
  if trimmed == "" || jsStartsWith trimmed "#" || jsStartsWith trimmed "-" then none
  else
    match reqLineMatch trimmed.data with
    | some (name, _sep, ver) => some (jsToLower name, ver)
    | none => none

/-- The sequence of `deps[...] = ...` assignments performed by `parseReqLines`. -/
def reqAssigns (content : String) : List (String × String) :=
  (jsLines content).filterMap parseReqLine

/-- Model of `parseReqLines` (the resulting `deps` object). -/
def parseReqLines (content : String) : List (String × String) :=
  objEntries (reqAssigns content)

/-- The shared diff loop of `parseRequirementsTxt` and `parsePyprojectToml`:
for each new entry, emit a change when the old version exists (truthy)
and differs. -/
def diffSimpleDeps (oldDeps newDeps : List (String × String)) (eco : Ecosystem) :
    List DependencyChange :=
  newDeps.filterMap (fun p =>
    match lookupVal oldDeps p.1 with
    | some oldVersion =>
      if oldVersion ≠ "" ∧ oldVersion ≠ p.2 then
        some ⟨p.1, oldVersion, p.2, eco⟩
      else none
    | none => none)

/-- Model of `parseRequirementsTxt`. -/
def parseRequirementsTxt (oldContent newContent : String) : List DependencyChange :=
  diffSimpleDeps (parseReqLines oldContent) (parseReqLines newContent) .pypi

/-! ## package.json parser -/

/-- The two dependency maps of a parsed package.json document (absent maps
are modelled as empty, matching the object-spread of `undefined`). -/
structure PkgDoc where
  dependencies : List (String × String)
  devDependencies : List (String × String)
  deriving DecidableEq

def emptyPkgDoc : PkgDoc := ⟨[], []⟩

/-- Model of `content ? JSON.parse(content) : {}`; `none` is a thrown parse
error. -/
def jsonOf (parseJson : String → Option PkgDoc) (content : String) : Option PkgDoc :=
  if content = "" then some emptyPkgDoc else parseJson content

/-- Model of `{ ...pkg.dependencies, ...pkg.devDependencies }`. -/
def mergedDeps (doc : PkgDoc) : List (String × String) :=
  objEntries (doc.dependencies ++ doc.devDependencies)

/-- Model of `version.replace(/^[\^~]/, '')`. -/
def stripRange (v : String) : String :=
  match v.data with
  | '^' :: rest => ⟨rest⟩
  | '~' :: rest => ⟨rest⟩
  | _ => v

/-- The diff loop of `parsePackageJson` over the two merged dependency maps. -/
def diffPkgDeps (oldDeps newDeps : List (String × String)) : List DependencyChange :=
  newDeps.filterMap (fun p =>
    match lookupVal oldDeps p.1 with
    | some oldVersionRaw =>
      if oldVersionRaw ≠ "" ∧ oldVersionRaw ≠ p.2 then
        let oldVersion := stripRange oldVersionRaw
        let newVersion := stripRange p.2
        if oldVersion ≠ newVersion then
          some ⟨p.1, oldVersion, newVersion, .npm⟩
        else none
      else none
    | none => none)

/-- Model of `parsePackageJson`; a parse failure on either side is caught
and yields zero changes for the call. -/
def parsePackageJson (parseJson : String → Option PkgDoc) (oldContent newContent : String) :
    List DependencyChange :=
  match jsonOf parseJson oldContent, jsonOf parseJson newContent with
  | some oldPkg, some newPkg => diffPkgDeps (mergedDeps oldPkg) (mergedDeps newPkg)
  | _, _ => []

/-! ## pyproject.toml parser -/

def isQuoteChar (c : Char) : Bool := c = '"' || c = '\''

/-- Attempt to match `([a-zA-Z0-9_-]+)\s*([><=~!]+)\s*([0-9.]+)` right after
an opening quote, returning name, version, and the rest of the input. -/
def matchAfterQuote (l : List Char) : Option (String × String × List Char) :=
  let name := l.takeWhile isNameChar
  let r1 := l.dropWhile isNameChar
  if name.isEmpty then none else
  let r2 := r1.dropWhile isJsWs
  let sep := r2.takeWhile isSepChar
  let r3 := r2.dropWhile isSepChar
  if sep.isEmpty then none else
  let r4 := r3.dropWhile isJsWs
  let ver := r4.takeWhile isVerChar
  let r5 := r4.dropWhile isVerChar
  if ver.isEmpty then none else some (⟨name⟩, ⟨ver⟩, r5)

/-- Fueled global scan for `/["']([a-zA-Z0-9_-]+)\s*([><=~!]+)\s*([0-9.]+)/g`,
collecting the assignments in match order.  The fuel (instantiated with the
input length, which bounds the number of scan steps) only makes the
recursion structural. -/
def scanPy : Nat → List Char → List (String × String)
  | 0, _ => []
  | _, [] => []
  | fuel + 1, c :: rest =>
    if isQuoteChar c then
      match matchAfterQuote rest with
      | some (name, ver, remaining) => (jsToLower name, ver) :: scanPy fuel remaining
      | none => scanPy fuel rest
    else scanPy fuel rest

/-- Model of `parsePyprojectDeps`. -/
def parsePyprojectDeps (content : String) : List (String × String) :=
  objEntries (scanPy content.data.length content.data)

/-- Model of `parsePyprojectToml`. -/
def parsePyprojectToml (oldContent newContent : String) : List DependencyChange :=
  diffSimpleDeps (parsePyprojectDeps oldContent) (parsePyprojectDeps newContent) .pypi

/-- Model of `parseDependencyChanges`: dispatch on filename suffix. -/
def parseDependencyChanges (parseJson : String → Option PkgDoc)
    (filename oldContent newContent : String) : List DependencyChange :=
  if jsEndsWith filename "requirements.txt" then
    parseRequirementsTxt oldContent newContent
  else if jsEndsWith filename "package.json" then
    parsePackageJson parseJson oldContent newContent
  else if jsEndsWith filename "pyproject.toml" then
    parsePyprojectToml oldContent newContent
  else []

/-! ## Breaking-change resolver (src/api.ts) -/

structure BreakingChange where
  change : String
  fix : Option String
  deriving DecidableEq

structure BreakingResult where
  package : String
  fromVersion : String
  toVersion : String
  breakingChanges : List BreakingChange
  migrationUrl : String
  deriving DecidableEq

/-- The `mappings` table of `mapPackageToSourceId`. -/
def mappings : List (String × String) :=
  [("langchain", "langchain"), ("langchain-core", "langchain"),
   ("langchain-openai", "langchain"), ("langchain-community", "langchain"),
   ("next", "next-js"), ("react", "react"), ("pydantic", "pydantic"),
   ("fastapi", "fastapi"), ("pytorch", "pytorch"), ("torch", "pytorch"),
   ("transformers", "transformers"), ("openai", "openai-python-sdk"),
   ("typescript", "typescript"), ("vite", "vite"), ("prisma", "prisma"),
   ("tailwindcss", "tailwind-css")]

/-- Model of `mapPackageToSourceId`:
`mappings[packageName.toLowerCase()] || packageName.toLowerCase()`. -/
def mapPackageToSourceId (packageName : String) : String :=
  jsOr (lookupVal mappings (jsToLower packageName)) (jsToLower packageName)

/-- Model of `version.replace(/^v/, '')`. -/
def stripLeadingV (s : String) : String :=
  match s.data with
  | 'v' :: rest => ⟨rest⟩
  | _ => s

/-- Model of `buildMigrationUrl`. -/
def buildMigrationUrl (sourceId version : String) : String :=
  "https://www.change8.dev/guides/" ++ sourceId ++ "/migrating-to-" ++ stripLeadingV version

/-- Outcome of one `fetch` + body-decode: success with a decoded body,
a non-ok status, or a thrown transport/decode error. -/
inductive FetchOutcome (α : Type) where
  | ok (body : α)
  | notOk
  | thrown
  deriving DecidableEq

/-- Did the primary diff lookup fail (non-success status or thrown error)? -/
def FetchOutcome.failed {α : Type} : FetchOutcome α → Bool
  | .ok _ => false
  | .notOk => true
  | .thrown => true

/-- One entry of a release's `breaking_changes` array: a plain string, an
object carrying optional `change`/`description`/`fix` fields, or any other
JSON value (skipped by the normalizer). -/
inductive RelBC where
  | str (s : String)
  | obj (change description fix : Option String)
  | other
  deriving DecidableEq

structure Release where
  tag : String
  breaking_changes : Option (List RelBC)
  deriving DecidableEq

/-- Pure oracle for the two catalog endpoints. -/
structure Api where
  diff : String → String → String → FetchOutcome (Option (List BreakingChange))
  releases : String → FetchOutcome (List Release)

def jsonStrLit (s : String) : String := "\"" ++ s ++ "\""

/-- Model of `JSON.stringify(bc)` for the object form (escaping ignored;
only reached when the object has neither `change` nor `description`). -/
def stringifyRelBCObj (change description fix : Option String) : String :=
  "\x7b" ++
    String.intercalate ","
      (([change.map (fun v => "\"change\":" ++ jsonStrLit v),
         description.map (fun v => "\"description\":" ++ jsonStrLit v),
         fix.map (fun v => "\"fix\":" ++ jsonStrLit v)]).filterMap id) ++
    "\x7d"

/-- Normalization of one release `breaking_changes` entry (the body of the
`for (const bc of ...)` loop). -/
def normalizeRelBC : RelBC → Option BreakingChange
  | .str s => some ⟨s, none⟩
  | .obj change description fix =>
    some ⟨jsOr change (jsOr description (stringifyRelBCObj change description fix)), fix⟩
  | .other => none

/-- Model of `tag.split('==')` (leftmost, non-overlapping). -/
def splitOnEqEq : List Char → List (List Char)
  | [] => [[]]
  | '=' :: '=' :: rest => [] :: splitOnEqEq rest
  | c :: rest =>
    match splitOnEqEq rest with
    | h :: t => (c :: h) :: t
    | [] => [[c]]

/-- Model of
`tag.includes('==') ? tag.split('==')[1] : tag.replace(/^v/, '')`
(`includes` holds exactly when the split has a second component). -/
def tagVersion (tag : String) : String :=
  match splitOnEqEq tag.data with
  | _ :: second :: _ => ⟨second⟩
  | _ => stripLeadingV tag

/-- The release-matching predicate of the `releases.find(...)` call. -/
def releaseMatches (r : Release) (toVersion : String) : Bool :=
  tagVersion r.tag == toVersion || tagVersion r.tag == ("v" ++ toVersion)

/-- Model of `getBreakingChangesFromRelease`; `.error ()` is a thrown
exception (either the explicit `throw new Error` on a non-ok status or a
rejected fetch/json). -/
def getBreakingChangesFromRelease (api : Api) (change : DependencyChange)
    (sourceId : String) : Except Unit BreakingResult :=
  match api.releases sourceId with
  | .notOk => .error ()
  | .thrown => .error ()
  | .ok releases =>
    let targetRelease := releases.find? (fun r => releaseMatches r change.toVersion)
    let breakingChanges :=
      match targetRelease with
      | some r => (r.breaking_changes.getD []).filterMap normalizeRelBC
      | none => []
    .ok ⟨change.package, change.fromVersion, change.toVersion, breakingChanges,
         buildMigrationUrl sourceId change.toVersion⟩

/-- Model of `getBreakingChangesForPackage`.  On a non-ok primary response
the fallback is called inside the `try` block, so a failure of that call is
caught by the `catch`, which calls the fallback again. -/
def getBreakingChangesForPackage (api : Api) (change : DependencyChange) :
    Except Unit BreakingResult :=
  let sourceId := mapPackageToSourceId change.package
  match api.diff sourceId change.fromVersion change.toVersion with
  | .ok body =>
    .ok ⟨change.package, change.fromVersion, change.toVersion, body.getD [],
         buildMigrationUrl sourceId change.toVersion⟩
  | .notOk =>
    (match getBreakingChangesFromRelease api change sourceId with
     | .ok r => .ok r
     | .error _ => getBreakingChangesFromRelease api change sourceId)
  | .thrown => getBreakingChangesFromRelease api change sourceId

/-- Model of `getBreakingChanges`: sequential per-change loop whose catch
degrades a failed change to an empty result. -/
def getBreakingChanges (api : Api) (changes : List DependencyChange) :
    List BreakingResult :=
  changes.map (fun change =>
    match getBreakingChangesForPackage api change with
    | .ok result => result
    | .error _ =>
      ⟨change.package, change.fromVersion, change.toVersion, [],
       buildMigrationUrl change.package change.toVersion⟩)

/-! ## Comment formatter -/

def marker : String := "<!-- change8-action -->"

/-- One table row of the comment (loop body over `result.breakingChanges`). -/
def renderRow (bc : BreakingChange) : String :=
  let change := jsSubstringTo bc.change 80 ++ (if 80 < jsLen bc.change then "..." else "")
  let fix :=
    match bc.fix with
    | some f => if f = "" then "-" else jsSubstringTo f 60 ++ (if 60 < jsLen f then "..." else "")
    | none => "-"
  "| " ++ change ++ " | " ++ fix ++ " |\n"

/-- Concatenation of a list of strings (the `comment +=` loop). -/
def strConcat : List String → String
  | [] => ""
  | s :: rest => s ++ strConcat rest

def sectionHeader (r : BreakingResult) : String :=
  "### " ++ r.package ++ ": " ++ r.fromVersion ++ " → " ++ r.toVersion ++ "\n\n"

def sectionCount (r : BreakingResult) : String :=
  "⚠️ **" ++ Nat.repr r.breakingChanges.length ++ " breaking change(s) detected**\n\n"

def sectionTable (r : BreakingResult) : String :=
  "| Issue | Fix |\n|-------|-----|\n" ++ strConcat (r.breakingChanges.map renderRow) ++ "\n"

def sectionLink (r : BreakingResult) : String :=
  "📖 **[Full Migration Guide →](" ++ r.migrationUrl ++ ")**\n\n---\n\n"

/-- One per-package section of the comment (one iteration of the
`for (const result of withBreaking)` loop). -/
def renderSection (r : BreakingResult) : String :=
  sectionHeader r ++ sectionCount r ++
    (if r.breakingChanges.length ≤ 3 then sectionTable r else "") ++ sectionLink r

def commentHeadline : String := "\n## 🔄 Change8 Dependency Analysis\n\n"

def commentIntro : String := marker ++ commentHeadline

def commentFooter : String :=
  "\n<sub>Powered by [Change8](https://change8.dev) - AI-powered changelog analysis</sub>"

/-- Model of `generateComment`. -/
def generateComment (results : List BreakingResult) : Option String :=
  let withBreaking := results.filter (fun r => 0 < r.breakingChanges.length)
  if withBreaking.length = 0 then none
  else some (commentIntro ++ strConcat (withBreaking.map renderSection) ++ commentFooter)

/-! ## Orchestrator file filter (the `files.filter` in `run`) -/

def isDepFile (filename : String) : Bool :=
  filename == "requirements.txt" ||
  filename == "package.json" ||
  filename == "pyproject.toml" ||
  jsEndsWith filename "/requirements.txt" ||
  jsEndsWith filename "/package.json"

/-! ## Helper lemmas: object semantics -/

theorem mem_dedupKeys {k : String} : ∀ {l : List String}, k ∈ dedupKeys l ↔ k ∈ l
  | [] => by simp [dedupKeys]
  | x :: rest => by
    rw [dedupKeys]
    by_cases hk : k = x
    · subst hk; simp
    · simp only [List.mem_cons, List.mem_filter, mem_dedupKeys (l := rest)]
      constructor
      · rintro (h | ⟨h, _⟩)
        · exact Or.inl h
        · exact Or.inr h
      · rintro (h | h)
        · exact Or.inl h
        · exact Or.inr ⟨h, by simpa using hk⟩

theorem lastVal_eq_none {l : List (String × String)} {k : String}
    (h : k ∉ l.map Prod.fst) : lastVal l k = none := by
  unfold lastVal
  have : l.filter (fun p => p.1 == k) = [] := by
    rw [List.filter_eq_nil_iff]
    intro p hp hbeq
    exact h (List.mem_map.mpr ⟨p, hp, by simpa using hbeq⟩)
  rw [this]
  rfl

theorem lookupVal_keyed (g : String → Option String) (xs : List String) (k : String) :
    lookupVal (xs.filterMap (fun x => (g x).map (fun v => (x, v)))) k =
      if k ∈ xs then g k else none := by
  induction xs with
  | nil => simp [lookupVal]
  | cons x xs ih =>
    cases hgx : g x with
    | none =>
      rw [List.filterMap_cons]
      simp only [hgx, Option.map_none']
      rw [ih]
      by_cases hk : k = x
      · subst hk
        by_cases hmem : k ∈ xs <;> simp [hgx, hmem]
      · simp [List.mem_cons, hk]
    | some v =>
      rw [List.filterMap_cons]
      simp only [hgx, Option.map_some']
      unfold lookupVal
      rw [List.find?_cons]
      by_cases hk : x = k
      · subst hk
        simp [hgx]
      · have : ((x, v).1 == k) = false := by simpa using hk
        rw [this]
        have hne : k ≠ x := fun h => hk h.symm
        simpa [lookupVal, List.mem_cons, hne] using ih

theorem objEntries_lookup (l : List (String × String)) (k : String) :
    lookupVal (objEntries l) k = lastVal l k := by
  unfold objEntries
  rw [lookupVal_keyed]
  by_cases h : k ∈ dedupKeys (l.map Prod.fst)
  · rw [if_pos h]
  · rw [if_neg h]
    exact (lastVal_eq_none (fun hm => h (mem_dedupKeys.mpr hm))).symm

theorem lookupVal_mem {m : List (String × String)} {k v : String}
    (h : lookupVal m k = some v) : (k, v) ∈ m := by
  unfold lookupVal at h
  cases hf : m.find? (fun p => p.1 == k) with
  | none => rw [hf] at h; simp at h
  | some p =>
    rw [hf] at h
    have hmem := List.mem_of_find?_eq_some hf
    have hpred := List.find?_some hf
    obtain ⟨p1, p2⟩ := p
    simp only [Option.map_some', Option.some.injEq] at h
    simp only [beq_iff_eq] at hpred
    subst hpred
    subst h
    exact hmem

theorem objEntries_key_mem {l : List (String × String)} {p : String × String}
    (h : p ∈ objEntries l) : p.1 ∈ l.map Prod.fst := by
  unfold objEntries at h
  rw [List.mem_filterMap] at h
  obtain ⟨k, hk, hf⟩ := h
  cases hlv : lastVal l k with
  | none => rw [hlv] at hf; simp at hf
  | some v =>
    rw [hlv] at hf
    simp only [Option.map_some', Option.some.injEq] at hf
    subst hf
    exact mem_dedupKeys.mp hk

/-! ## Helper lemmas: diff loops -/

theorem mem_diffSimpleDeps {oldDeps newDeps : List (String × String)} {eco : Ecosystem}
    {c : DependencyChange} (h : c ∈ diffSimpleDeps oldDeps newDeps eco) :
    lookupVal oldDeps c.package = some c.fromVersion ∧ c.fromVersion ≠ "" ∧
    c.fromVersion ≠ c.toVersion ∧ (c.package, c.toVersion) ∈ newDeps ∧ c.ecosystem = eco := by
  unfold diffSimpleDeps at h
  rw [List.mem_filterMap] at h
  obtain ⟨p, hp, hf⟩ := h
  cases hl : lookupVal oldDeps p.1 with
  | none => rw [hl] at hf; simp at hf
  | some ov =>
    rw [hl] at hf
    dsimp only at hf
    by_cases hcond : ov ≠ "" ∧ ov ≠ p.2
    · rw [if_pos hcond] at hf
      cases hf
      exact ⟨hl, hcond.1, hcond.2, hp, rfl⟩
    · rw [if_neg hcond] at hf
      simp at hf

theorem mem_diffPkgDeps {oldDeps newDeps : List (String × String)} {c : DependencyChange}
    (h : c ∈ diffPkgDeps oldDeps newDeps) :
    ∃ ov nv, lookupVal oldDeps c.package = some ov ∧ (c.package, nv) ∈ newDeps ∧
      ov ≠ "" ∧ c.fromVersion = stripRange ov ∧ c.toVersion = stripRange nv ∧
      c.fromVersion ≠ c.toVersion ∧ c.ecosystem = .npm := by
  unfold diffPkgDeps at h
  rw [List.mem_filterMap] at h
  obtain ⟨p, hp, hf⟩ := h
  cases hl : lookupVal oldDeps p.1 with
  | none => rw [hl] at hf; simp at hf
  | some ov =>
    rw [hl] at hf
    dsimp only at hf
    by_cases hcond : ov ≠ "" ∧ ov ≠ p.2
    · rw [if_pos hcond] at hf
      by_cases hst : stripRange ov ≠ stripRange p.2
      · rw [if_pos hst] at hf
        cases hf
        exact ⟨ov, p.2, hl, hp, hcond.1, rfl, rfl, hst, rfl⟩
      · rw [if_neg hst] at hf
        simp at hf
    · rw [if_neg hcond] at hf
      simp at hf

theorem objEntries_mem_eq_lastVal {l : List (String × String)} {k v : String}
    (h : (k, v) ∈ objEntries l) : lastVal l k = some v := by
  unfold objEntries at h
  rw [List.mem_filterMap] at h
  obtain ⟨k', _, hf⟩ := h
  cases hlv : lastVal l k' with
  | none => rw [hlv] at hf; simp at hf
  | some v' =>
    rw [hlv] at hf
    simp only [Option.map_some', Option.some.injEq, Prod.mk.injEq] at hf
    obtain ⟨hk, hv⟩ := hf
    subst hk
    subst hv
    exact hlv

theorem objEntries_mem_exists_assign {l : List (String × String)} {k v : String}
    (h : (k, v) ∈ objEntries l) : ∃ v', (k, v') ∈ l := by
  have hk := objEntries_key_mem h
  rw [List.mem_map] at hk
  obtain ⟨p, hp, hfst⟩ := hk
  exact ⟨p.2, by rwa [show ((k : String), p.2) = p from Prod.ext hfst.symm rfl]⟩

theorem parseReqLine_key {line : String} {k v : String}
    (h : parseReqLine line = some (k, v)) :
    ∃ name sep ver, reqLineMatch (jsTrim line).data = some (name, sep, ver) ∧
      k = jsToLower name ∧ v = ver := by
  unfold parseReqLine at h
  dsimp only at h
  split at h
  · simp at h
  · cases hm : reqLineMatch (jsTrim line).data with
    | none => rw [hm] at h; simp at h
    | some t =>
      obtain ⟨name, sep, ver⟩ := t
      rw [hm] at h
      dsimp only at h
      simp only [Option.some.injEq, Prod.mk.injEq] at h
      exact ⟨name, sep, ver, rfl, h.1.symm, h.2.symm⟩

theorem scanPy_key_lower {p : String × String} :
    ∀ {fuel : Nat} {l : List Char}, p ∈ scanPy fuel l → ∃ name, p.1 = jsToLower name := by
  intro fuel
  induction fuel with
  | zero => intro l h; simp [scanPy] at h
  | succ fuel ih =>
    intro l h
    cases l with
    | nil => simp [scanPy] at h
    | cons c rest =>
      rw [scanPy] at h
      by_cases hq : isQuoteChar c = true
      · rw [if_pos hq] at h
        cases hm : matchAfterQuote rest with
        | none => rw [hm] at h; exact ih h
        | some t =>
          obtain ⟨name, ver, remaining⟩ := t
          rw [hm] at h
          dsimp only at h
          rw [List.mem_cons] at h
          cases h with
          | inl h => exact ⟨name, by rw [h]⟩
          | inr h => exact ih h
      · rw [if_neg hq] at h
        exact ih h

/-! ## Claim C4 -/

/-- Where (and with what raw version) the emitted change's package must have
occurred in the old manifest snapshot, per format, mirroring the dispatch of
`parseDependencyChanges`. -/
def presentInOldWith (parseJson : String → Option PkgDoc) (filename oldContent : String)
    (pkg fromV : String) : Prop :=
  if jsEndsWith filename "requirements.txt" then
    lookupVal (parseReqLines oldContent) pkg = some fromV
  else if jsEndsWith filename "package.json" then
    ∃ doc ov, jsonOf parseJson oldContent = some doc ∧
      lookupVal (mergedDeps doc) pkg = some ov ∧ ov ≠ "" ∧ stripRange ov = fromV
  else if jsEndsWith filename "pyproject.toml" then
    lookupVal (parsePyprojectDeps oldContent) pkg = some fromV
  else False

/-- C4: for every pair of old/new manifest contents and every format, each
DependencyChange emitted by parseDependencyChanges satisfies
fromVersion ≠ toVersion, and its package was present (with a parseable
version) in the old snapshot; a package absent from the old snapshot and
present in the new one is never emitted. -/
theorem c4_changes_require_old_version (parseJson : String → Option PkgDoc)
    (filename oldContent newContent : String) (c : DependencyChange)
    (h : c ∈ parseDependencyChanges parseJson filename oldContent newContent) :
    c.fromVersion ≠ c.toVersion ∧
      presentInOldWith parseJson filename oldContent c.package c.fromVersion := by
  unfold parseDependencyChanges at h
  unfold presentInOldWith
  by_cases h1 : jsEndsWith filename "requirements.txt" = true
  · rw [if_pos h1] at h ⊢
    obtain ⟨hlk, _, hne, _, _⟩ := mem_diffSimpleDeps h
    exact ⟨hne, hlk⟩
  · rw [if_neg h1] at h ⊢
    by_cases h2 : jsEndsWith filename "package.json" = true
    · rw [if_pos h2] at h ⊢
      unfold parsePackageJson at h
      cases ho : jsonOf parseJson oldContent with
      | none => rw [ho] at h; simp at h
      | some oldPkg =>
        cases hn : jsonOf parseJson newContent with
        | none => rw [ho, hn] at h; simp at h
        | some newPkg =>
          rw [ho, hn] at h
          dsimp only at h
          obtain ⟨ov, nv, hlk, _, hne, hfrom, _, hneq, _⟩ := mem_diffPkgDeps h
          exact ⟨hneq, oldPkg, ov, rfl, hlk, hne, hfrom.symm⟩
    · rw [if_neg h2] at h ⊢
      by_cases h3 : jsEndsWith filename "pyproject.toml" = true
      · rw [if_pos h3] at h ⊢
        obtain ⟨hlk, _, hne, _, _⟩ := mem_diffSimpleDeps h
        exact ⟨hne, hlk⟩
      · rw [if_neg h3] at h
        simp at h

/-- Witness for C4 at a concrete requirements.txt diff. -/
theorem c4_witness :
    (⟨"pkga", "1.0", "2.0", Ecosystem.pypi⟩ : DependencyChange) ∈
        parseDependencyChanges (fun _ => none) "requirements.txt" "pkga==1.0" "pkga==2.0" ∧
      ("1.0" : String) ≠ "2.0" ∧
      presentInOldWith (fun _ => none) "requirements.txt" "pkga==1.0" "pkga" "1.0" := by
  refine ⟨by decide, ?_⟩
  exact c4_changes_require_old_version (fun _ => none) "requirements.txt" "pkga==1.0"
    "pkga==2.0" ⟨"pkga", "1.0", "2.0", Ecosystem.pypi⟩ (by decide)

/-! ## Claim C5 -/

/-- A concrete `JSON.parse` oracle for the C5 counterexample. -/
def c5ParseJson : String → Option PkgDoc := fun s =>
  if s = "old" then some ⟨[("a", "")], []⟩
  else if s = "new" then some ⟨[("a", "1.0.0")], []⟩
  else none

/-- C5 counterexample: the package "a" is present in both merged dependency
maps, its version strings "" and "1.0.0" differ after stripping, yet no
change is produced (the empty old version is falsy and skipped). -/
theorem c5_counterexample :
    parsePackageJson c5ParseJson "old" "new" = [] ∧
      diffPkgDeps [("a", "")] [("a", "1.0.0")] = [] ∧
      lookupVal (mergedDeps ⟨[("a", "")], []⟩) "a" = some "" ∧
      lookupVal (mergedDeps ⟨[("a", "1.0.0")], []⟩) "a" = some "1.0.0" ∧
      stripRange "" ≠ stripRange "1.0.0" := by
  decide

/-- C5 (amended): a package present in both merged maps with a non-empty old
version string produces a change — with fromVersion/toVersion the stripped
versions — if and only if the versions differ after stripping a single
leading caret or tilde from each side. -/
theorem c5_strip_iff (oldDeps newDeps : List (String × String)) (pkg ov nv : String)
    (hov : lookupVal oldDeps pkg = some ov) (hnv : lookupVal newDeps pkg = some nv)
    (hne : ov ≠ "") :
    (∃ c ∈ diffPkgDeps oldDeps newDeps, c.package = pkg ∧
        c.fromVersion = stripRange ov ∧ c.toVersion = stripRange nv) ↔
      stripRange ov ≠ stripRange nv := by
  constructor
  · rintro ⟨c, hc, hpkg, hfrom, hto⟩
    obtain ⟨ov', nv', hlk, _, _, hfrom', hto', hneq, _⟩ := mem_diffPkgDeps hc
    rw [hfrom, hto] at hneq
    exact hneq
  · intro hst
    refine ⟨⟨pkg, stripRange ov, stripRange nv, .npm⟩, ?_, rfl, rfl, rfl⟩
    unfold diffPkgDeps
    rw [List.mem_filterMap]
    refine ⟨(pkg, nv), lookupVal_mem hnv, ?_⟩
    have hovnv : ov ≠ nv := fun he => hst (by rw [he])
    rw [show lookupVal oldDeps (pkg, nv).1 = some ov from hov]
    dsimp only
    rw [if_pos ⟨hne, hovnv⟩, if_pos hst]

/-- Witness for C5 (amended) at the spec's own example versions. -/
theorem c5_witness :
    (∃ c ∈ diffPkgDeps [("a", "^1.2.3")] [("a", "^2.0.0")], c.package = "a" ∧
        c.fromVersion = stripRange "^1.2.3" ∧ c.toVersion = stripRange "^2.0.0") ∧
      stripRange "^1.2.3" ≠ stripRange "^2.0.0" := by
  refine ⟨?_, by decide⟩
  exact (c5_strip_iff [("a", "^1.2.3")] [("a", "^2.0.0")] "a" "^1.2.3" "^2.0.0"
    (by decide) (by decide) (by decide)).mpr (by decide)

/-! ## Claim C10 -/

/-- C10: in the pinned-requirement parser, when the same (case-insensitively
compared) package name appears on multiple parseable lines of one snapshot,
the last such line's version is the one recorded and hence the one used
for diffing. -/
theorem c10_req_last_occurrence_wins :
    (∀ content pkg, lookupVal (parseReqLines content) pkg = lastVal (reqAssigns content) pkg) ∧
      (∀ oldContent newContent c, c ∈ parseRequirementsTxt oldContent newContent →
        lastVal (reqAssigns oldContent) c.package = some c.fromVersion ∧
          lastVal (reqAssigns newContent) c.package = some c.toVersion) := by
  constructor
  · intro content pkg
    exact objEntries_lookup _ _
  · intro oldContent newContent c h
    obtain ⟨hlk, _, _, hmem, _⟩ := mem_diffSimpleDeps h
    refine ⟨?_, objEntries_mem_eq_lastVal hmem⟩
    rw [← objEntries_lookup]
    exact hlk

/-- Witness for C10: a duplicated name (with differing case) in the old
snapshot resolves to the last parseable line's version. -/
theorem c10_witness :
    lastVal (reqAssigns "PkgB==1.0\npkgb==1.5") "pkgb" = some "1.5" ∧
      lastVal (reqAssigns "pkgb==2.0") "pkgb" = some "2.0" := by
  refine c10_req_last_occurrence_wins.2 "PkgB==1.0\npkgb==1.5" "pkgb==2.0"
    ⟨"pkgb", "1.5", "2.0", Ecosystem.pypi⟩ (by decide)

/-! ## Claim C3 -/

/-- A concrete `JSON.parse` oracle for the C3 counterexample. -/
def c3ParseJson : String → Option PkgDoc := fun s =>
  if s = "oldR" then some ⟨[("React", "17.0.0")], []⟩
  else if s = "newR" then some ⟨[("React", "18.0.0")], []⟩
  else none

/-- C3 counterexample: the structured-object parser copies the manifest key
verbatim; a manifest key "React" is emitted as "React", not as its lowercase
form "react". -/
theorem c3_counterexample :
    (parsePackageJson c3ParseJson "oldR" "newR").map (fun c => c.package) = ["React"] ∧
      jsToLower "React" = "react" ∧ ("React" : String) ≠ "react" := by
  decide

/-- C3 (amended): the pinned-requirement and key/value parsers emit package
names that are the lowercase form of the identifier matched in the manifest;
the structured-object parser instead copies the merged-map key verbatim
(without lowercasing). -/
theorem c3_packages_lowercased :
    (∀ content k v, (k, v) ∈ parseReqLines content →
        ∃ line name sep ver, line ∈ jsLines content ∧
          reqLineMatch (jsTrim line).data = some (name, sep, ver) ∧ k = jsToLower name) ∧
      (∀ content k v, (k, v) ∈ parsePyprojectDeps content → ∃ name, k = jsToLower name) ∧
      (∀ parseJson oldContent newContent c,
        c ∈ parsePackageJson parseJson oldContent newContent →
          ∃ doc nv, jsonOf parseJson newContent = some doc ∧
            (c.package, nv) ∈ mergedDeps doc) := by
  refine ⟨?_, ?_, ?_⟩
  · intro content k v h
    obtain ⟨v', hv'⟩ := objEntries_mem_exists_assign h
    unfold reqAssigns at hv'
    rw [List.mem_filterMap] at hv'
    obtain ⟨line, hline, hpl⟩ := hv'
    obtain ⟨name, sep, ver, hm, hk, _⟩ := parseReqLine_key hpl
    exact ⟨line, name, sep, ver, hline, hm, hk⟩
  · intro content k v h
    obtain ⟨v', hv'⟩ := objEntries_mem_exists_assign h
    obtain ⟨name, hname⟩ := scanPy_key_lower hv'
    exact ⟨name, hname⟩
  · intro parseJson oldContent newContent c h
    unfold parsePackageJson at h
    cases ho : jsonOf parseJson oldContent with
    | none => rw [ho] at h; simp at h
    | some oldPkg =>
      cases hn : jsonOf parseJson newContent with
      | none => rw [ho, hn] at h; simp at h
      | some newPkg =>
        rw [ho, hn] at h
        dsimp only at h
        obtain ⟨ov, nv, _, hmem, _, _, _, _, _⟩ := mem_diffPkgDeps h
        exact ⟨newPkg, nv, rfl, hmem⟩

/-- Witness for C3 (amended): the requirement line "PkG==1.0" records the
lowercased key "pkg". -/
theorem c3_witness :
    ∃ line name sep ver, line ∈ jsLines "PkG==1.0" ∧
      reqLineMatch (jsTrim line).data = some (name, sep, ver) ∧
      ("pkg" : String) = jsToLower name :=
  c3_packages_lowercased.1 "PkG==1.0" "pkg" "1.0" (by decide)

/-! ## Claim C9 -/

/-- C9: parseDependencyChanges is total; an unrecognized filename yields the
empty sequence, and a structured-object snapshot that fails to parse yields
zero changes for the call instead of propagating the error. -/
theorem c9_parse_never_fails (parseJson : String → Option PkgDoc) :
    (∀ filename oldContent newContent,
        jsEndsWith filename "requirements.txt" = false →
        jsEndsWith filename "package.json" = false →
        jsEndsWith filename "pyproject.toml" = false →
        parseDependencyChanges parseJson filename oldContent newContent = []) ∧
      (∀ oldContent newContent, oldContent ≠ "" → parseJson oldContent = none →
        parsePackageJson parseJson oldContent newContent = []) ∧
      (∀ oldContent newContent, newContent ≠ "" → parseJson newContent = none →
        parsePackageJson parseJson oldContent newContent = []) := by
  refine ⟨?_, ?_, ?_⟩
  · intro filename oldContent newContent h1 h2 h3
    unfold parseDependencyChanges
    rw [h1, h2, h3]
    rfl
  · intro oldContent newContent hne hp
    unfold parsePackageJson jsonOf
    rw [if_neg hne, hp]
  · intro oldContent newContent hne hp
    unfold parsePackageJson jsonOf
    rw [if_neg hne, hp]
    cases hif : (if oldContent = "" then some emptyPkgDoc else parseJson oldContent) <;> rfl

/-- Witness for C9: an unrecognized filename and an unparseable document. -/
theorem c9_witness :
    parseDependencyChanges (fun _ => none) "README.md" "x" "y" = [] ∧
      parsePackageJson (fun _ => none) "not json" "also not json" = [] := by
  refine ⟨(c9_parse_never_fails (fun _ => none)).1 "README.md" "x" "y"
    (by decide) (by decide) (by decide), ?_⟩
  exact (c9_parse_never_fails (fun _ => none)).2.1 "not json" "also not json"
    (by decide) rfl

/-! ## Claim C8 -/

theorem suffix_getLast_eq {s l : List Char} (h : s <:+ l) (hs : s ≠ []) :
    l.getLast? = s.getLast? := by
  obtain ⟨t, rfl⟩ := h
  rw [List.getLast?_append]
  cases hgl : s.getLast? with
  | none =>
    rw [List.getLast?_eq_none_iff] at hgl
    exact absurd hgl hs
  | some a => rfl

/-- C8 counterexample: a pyproject.toml in a subdirectory is a suffix match
on "/pyproject.toml" yet is not recognized by the orchestrator's filter. -/
theorem c8_counterexample :
    isDepFile "app/pyproject.toml" = false ∧
      jsEndsWith "app/pyproject.toml" "/pyproject.toml" = true := by
  decide

/-- C8 (amended): the orchestrator recognizes requirements.txt and
package.json by exact or suffix match, but pyproject.toml only by exact
match: every path with a proper "/pyproject.toml" suffix is ignored. -/
theorem c8_manifest_filter :
    (∀ f : String, isDepFile f = true ↔
        (f = "requirements.txt" ∨ f = "package.json" ∨ f = "pyproject.toml" ∨
          ("/requirements.txt").data <:+ f.data ∨ ("/package.json").data <:+ f.data)) ∧
      (∀ f : String, jsEndsWith f "/pyproject.toml" = true → isDepFile f = false) := by
  have hiff : ∀ f : String, isDepFile f = true ↔
      (f = "requirements.txt" ∨ f = "package.json" ∨ f = "pyproject.toml" ∨
        ("/requirements.txt").data <:+ f.data ∨ ("/package.json").data <:+ f.data) := by
    intro f
    simp only [isDepFile, jsEndsWith, Bool.or_eq_true, beq_iff_eq,
      List.isSuffixOf_iff_suffix]
    tauto
  refine ⟨hiff, ?_⟩
  intro f h
  rw [jsEndsWith, List.isSuffixOf_iff_suffix] at h
  have hlast : f.data.getLast? = some 'l' := by
    rw [suffix_getLast_eq h (by decide)]
    decide
  by_contra hdep
  rw [Bool.not_eq_false] at hdep
  rcases (hiff f).mp hdep with h1 | h2 | h3 | h4 | h5
  · rw [h1] at hlast
    exact absurd hlast (by decide)
  · rw [h2] at hlast
    exact absurd hlast (by decide)
  · obtain ⟨t, ht⟩ := h
    rw [h3] at ht
    have := congrArg List.length ht
    simp at this
  · rw [suffix_getLast_eq h4 (by decide)] at hlast
    exact absurd hlast (by decide)
  · rw [suffix_getLast_eq h5 (by decide)] at hlast
    exact absurd hlast (by decide)

/-- Witness for C8 (amended): a subdirectory pyproject.toml is ignored. -/
theorem c8_witness :
    isDepFile "libs/pyproject.toml" = false ∧
      jsEndsWith "libs/pyproject.toml" "/pyproject.toml" = true :=
  ⟨c8_manifest_filter.2 "libs/pyproject.toml" (by decide), by decide⟩

/-! ## Claims C1 and C2: resolver lemmas -/

theorem buildMigrationUrl_ne_empty (sourceId version : String) :
    buildMigrationUrl sourceId version ≠ "" := by
  intro h
  have hd := congrArg String.data h
  rw [buildMigrationUrl] at hd
  simp [String.data_append] at hd

theorem fromRelease_fields {api : Api} {c : DependencyChange} {sid : String}
    {r : BreakingResult} (h : getBreakingChangesFromRelease api c sid = .ok r) :
    r.package = c.package ∧ r.fromVersion = c.fromVersion ∧ r.toVersion = c.toVersion ∧
      r.migrationUrl = buildMigrationUrl sid c.toVersion := by
  unfold getBreakingChangesFromRelease at h
  cases hrel : api.releases sid with
  | notOk => rw [hrel] at h; simp at h
  | thrown => rw [hrel] at h; simp at h
  | ok releases =>
    rw [hrel] at h
    dsimp only at h
    injection h with h
    subst h
    exact ⟨rfl, rfl, rfl, rfl⟩

theorem forPackage_fields {api : Api} {c : DependencyChange} {r : BreakingResult}
    (h : getBreakingChangesForPackage api c = .ok r) :
    r.package = c.package ∧ r.fromVersion = c.fromVersion ∧ r.toVersion = c.toVersion ∧
      r.migrationUrl = buildMigrationUrl (mapPackageToSourceId c.package) c.toVersion := by
  unfold getBreakingChangesForPackage at h
  dsimp only at h
  cases hd : api.diff (mapPackageToSourceId c.package) c.fromVersion c.toVersion with
  | ok body =>
    rw [hd] at h
    dsimp only at h
    injection h with h
    subst h
    exact ⟨rfl, rfl, rfl, rfl⟩
  | notOk =>
    rw [hd] at h
    dsimp only at h
    cases hf : getBreakingChangesFromRelease api c (mapPackageToSourceId c.package) with
    | ok r' =>
      rw [hf] at h
      dsimp only at h
      injection h with h
      subst h
      exact fromRelease_fields hf
    | error e =>
      rw [hf] at h
      simp at h
  | thrown =>
    rw [hd] at h
    exact fromRelease_fields h

theorem forPackage_error_of_failures {api : Api} {c : DependencyChange}
    (hd : (api.diff (mapPackageToSourceId c.package) c.fromVersion c.toVersion).failed = true)
    (hr : getBreakingChangesFromRelease api c (mapPackageToSourceId c.package) = .error ()) :
    getBreakingChangesForPackage api c = .error () := by
  unfold getBreakingChangesForPackage
  dsimp only
  cases hdd : api.diff (mapPackageToSourceId c.package) c.fromVersion c.toVersion with
  | ok body => rw [hdd] at hd; simp [FetchOutcome.failed] at hd
  | notOk => rw [hr]
  | thrown => exact hr

/-- C1: the resolver returns exactly one result per input change, in input
order, with package/fromVersion/toVersion copied from the corresponding
input; when both the primary diff lookup and the release-listing fallback
fail for a change, that change's result has no breaking changes and a
non-empty migration URL, and the rest of the batch is unaffected. -/
theorem c1_resolver_one_result_per_change (api : Api) (changes : List DependencyChange) :
    (getBreakingChanges api changes).length = changes.length ∧
      ∀ (i : Nat) (r : BreakingResult) (c : DependencyChange),
        (getBreakingChanges api changes)[i]? = some r → changes[i]? = some c →
        r.package = c.package ∧ r.fromVersion = c.fromVersion ∧ r.toVersion = c.toVersion ∧
          ((api.diff (mapPackageToSourceId c.package) c.fromVersion c.toVersion).failed = true →
            getBreakingChangesFromRelease api c (mapPackageToSourceId c.package) = .error () →
            r.breakingChanges = [] ∧ r.migrationUrl ≠ "") := by
  constructor
  · exact List.length_map _ _
  · intro i r c hr hc
    unfold getBreakingChanges at hr
    rw [List.getElem?_map, hc] at hr
    dsimp only [Option.map_some'] at hr
    injection hr with hr
    cases hfp : getBreakingChangesForPackage api c with
    | ok result =>
      rw [hfp] at hr
      dsimp only at hr
      subst hr
      obtain ⟨h1, h2, h3, _⟩ := forPackage_fields hfp
      refine ⟨h1, h2, h3, ?_⟩
      intro hdf hrf
      exact absurd hfp (by rw [forPackage_error_of_failures hdf hrf]; simp)
    | error e =>
      rw [hfp] at hr
      dsimp only at hr
      subst hr
      exact ⟨rfl, rfl, rfl, fun _ _ => ⟨rfl, buildMigrationUrl_ne_empty _ _⟩⟩

/-- An oracle on which every endpoint fails with a non-ok status. -/
def failApi : Api := ⟨fun _ _ _ => .notOk, fun _ => .notOk⟩

def c1Change : DependencyChange := ⟨"next", "13.0.0", "14.0.0", .npm⟩

/-- Witness for C1: a single-change batch against the all-failing oracle. -/
theorem c1_witness :
    (getBreakingChanges failApi [c1Change]).length = 1 ∧
      ∀ r, (getBreakingChanges failApi [c1Change])[0]? = some r →
        r.package = "next" ∧ r.fromVersion = "13.0.0" ∧ r.toVersion = "14.0.0" ∧
          r.breakingChanges = [] ∧ r.migrationUrl ≠ "" := by
  have h := c1_resolver_one_result_per_change failApi [c1Change]
  refine ⟨h.1, ?_⟩
  intro r hr
  obtain ⟨h1, h2, h3, h4⟩ := h.2 0 r c1Change hr rfl
  exact ⟨h1, h2, h3, h4 rfl rfl⟩

def c2Change : DependencyChange := ⟨"next", "13.0.0", "14.0.0", .npm⟩

/-- C2 counterexample: when the lookup entirely fails for the package
"next" (canonical identifier "next-js"), the emitted migration URL is built
from the raw package name "next", not from the canonical identifier. -/
theorem c2_counterexample :
    (getBreakingChanges failApi [c2Change]).map (fun r => r.migrationUrl) =
        ["https://www.change8.dev/guides/next/migrating-to-14.0.0"] ∧
      mapPackageToSourceId "next" = "next-js" ∧
      buildMigrationUrl (mapPackageToSourceId "next") "14.0.0" =
        "https://www.change8.dev/guides/next-js/migrating-to-14.0.0" ∧
      ("https://www.change8.dev/guides/next/migrating-to-14.0.0" : String) ≠
        "https://www.change8.dev/guides/next-js/migrating-to-14.0.0" := by
  decide

/-- C2 (amended): every successful per-package lookup (primary or fallback)
builds the migration URL from the canonical catalog identifier and the
target version with one leading 'v' stripped; but in the entirely-failed
outcome, the per-change catch builds it from the raw package name instead
of the canonical identifier. -/
theorem c2_migration_url_construction (api : Api) (change : DependencyChange) :
    (∀ r, getBreakingChangesForPackage api change = .ok r →
        r.migrationUrl = buildMigrationUrl (mapPackageToSourceId change.package)
          change.toVersion) ∧
      (∀ (changes : List DependencyChange) (i : Nat) (r : BreakingResult),
        changes[i]? = some change →
        getBreakingChangesForPackage api change = .error () →
        (getBreakingChanges api changes)[i]? = some r →
        r.migrationUrl = buildMigrationUrl change.package change.toVersion) ∧
      (∀ sourceId version, buildMigrationUrl sourceId version =
        "https://www.change8.dev/guides/" ++ sourceId ++ "/migrating-to-" ++
          stripLeadingV version) ∧
      (∀ w, stripLeadingV ("v" ++ w) = w) := by
  refine ⟨?_, ?_, fun _ _ => rfl, fun w => rfl⟩
  · intro r h
    exact (forPackage_fields h).2.2.2
  · intro changes i r hc herr hr
    unfold getBreakingChanges at hr
    rw [List.getElem?_map, hc] at hr
    dsimp only [Option.map_some'] at hr
    injection hr with hr
    rw [herr] at hr
    dsimp only at hr
    subst hr
    rfl

/-- An oracle whose diff endpoint always succeeds with no breaking changes. -/
def okDiffApi : Api := ⟨fun _ _ _ => .ok (some []), fun _ => .notOk⟩

def c2Result : BreakingResult :=
  ⟨"next", "13.0.0", "14.0.0", [], buildMigrationUrl "next-js" "14.0.0"⟩

/-- Witness for C2 (amended): a successful lookup for "next" uses the
canonical identifier "next-js" in the migration URL. -/
theorem c2_witness :
    getBreakingChangesForPackage okDiffApi c2Change = .ok c2Result ∧
      c2Result.migrationUrl =
        buildMigrationUrl (mapPackageToSourceId c2Change.package) c2Change.toVersion :=
  ⟨rfl, (c2_migration_url_construction okDiffApi c2Change).1 c2Result rfl⟩

/-! ## Claim C7 -/

theorem strConcat_infix_of_mem {l : List String} {s : String} (h : s ∈ l) :
    s.data <:+: (strConcat l).data := by
  induction l with
  | nil => simp at h
  | cons x xs ih =>
    rw [List.mem_cons] at h
    rw [strConcat, String.data_append]
    cases h with
    | inl h =>
      subst h
      exact ⟨[], (strConcat xs).data, by simp⟩
    | inr h =>
      obtain ⟨pre, post, hpp⟩ := ih h
      exact ⟨x.data ++ pre, post, by rw [← hpp]; simp⟩

theorem renderSection_split (r : BreakingResult) :
    (3 < r.breakingChanges.length →
        renderSection r = sectionHeader r ++ sectionCount r ++ sectionLink r) ∧
      (r.breakingChanges.length ≤ 3 →
        renderSection r =
          sectionHeader r ++ sectionCount r ++ sectionTable r ++ sectionLink r) := by
  constructor
  · intro h3
    unfold renderSection
    rw [if_neg (by omega), String.append_empty]
  · intro h3
    unfold renderSection
    rw [if_pos h3]

/-- C7: in the formatter's output, every rendered result contributes its
section; the section always contains the breaking-change count line and the
migration-guide link, contains no table block when the result has more than
3 entries, and contains a table block when it has 3 or fewer. -/
theorem c7_table_only_up_to_three (results : List BreakingResult) (r : BreakingResult)
    (s : String) (hmem : r ∈ results) (hne : r.breakingChanges ≠ [])
    (hout : generateComment results = some s) :
    (renderSection r).data <:+: s.data ∧
      (sectionCount r).data <:+: (renderSection r).data ∧
      (sectionLink r).data <:+: (renderSection r).data ∧
      (3 < r.breakingChanges.length →
        renderSection r = sectionHeader r ++ sectionCount r ++ sectionLink r) ∧
      (r.breakingChanges.length ≤ 3 →
        renderSection r =
          sectionHeader r ++ sectionCount r ++ sectionTable r ++ sectionLink r) := by
  have hsplit := renderSection_split r
  have hmemw : r ∈ results.filter (fun x => 0 < x.breakingChanges.length) := by
    rw [List.mem_filter]
    exact ⟨hmem, by simpa using List.length_pos.mpr hne⟩
  refine ⟨?_, ?_, ?_, hsplit.1, hsplit.2⟩
  · unfold generateComment at hout
    rw [if_neg (by
      intro hlen
      rw [List.length_eq_zero] at hlen
      rw [hlen] at hmemw
      simp at hmemw)] at hout
    injection hout with hout
    subst hout
    have hs : (renderSection r).data <:+:
        (strConcat ((results.filter (fun x => 0 < x.breakingChanges.length)).map
          renderSection)).data :=
      strConcat_infix_of_mem (List.mem_map_of_mem _ hmemw)
    obtain ⟨pre, post, hpp⟩ := hs
    exact ⟨commentIntro.data ++ pre, post ++ commentFooter.data, by
      rw [String.data_append, String.data_append, ← hpp]; simp⟩
  · unfold renderSection
    exact ⟨(sectionHeader r).data,
      ((if r.breakingChanges.length ≤ 3 then sectionTable r else "") ++ sectionLink r).data,
      by simp [String.data_append]⟩
  · unfold renderSection
    exact ⟨(sectionHeader r ++ sectionCount r ++
        (if r.breakingChanges.length ≤ 3 then sectionTable r else "")).data, [], by
      simp [String.data_append]⟩

def c7BigResult : BreakingResult :=
  ⟨"p", "1.0", "2.0",
    [⟨"a", none⟩, ⟨"b", none⟩, ⟨"c", none⟩, ⟨"d", none⟩], "u"⟩

/-- Witness for C7: a result with 4 entries renders without a table block
but with the count line and migration link. -/
theorem c7_witness :
    (renderSection c7BigResult).data <:+:
        (((generateComment [c7BigResult]).getD "").data) ∧
      (sectionCount c7BigResult).data <:+: (renderSection c7BigResult).data ∧
      (sectionLink c7BigResult).data <:+: (renderSection c7BigResult).data ∧
      renderSection c7BigResult =
        sectionHeader c7BigResult ++ sectionCount c7BigResult ++ sectionLink c7BigResult := by
  have h := c7_table_only_up_to_three [c7BigResult] c7BigResult
    ((generateComment [c7BigResult]).getD "") (by decide) (by decide) rfl
  exact ⟨h.1, h.2.1, h.2.2.1, h.2.2.2.1 (by decide)⟩

/-! ## Claim C6: marker-occurrence counting -/

/-- Number of positions of `s` at which `pat` occurs (as a contiguous
substring); positions may overlap. -/
def countOcc (pat : List Char) : List Char → Nat
  | [] => 0
  | c :: rest => (if pat.isPrefixOf (c :: rest) then 1 else 0) + countOcc pat rest

theorem isPrefixOfEq {l₁ l₂ : List Char} (h : l₁.isPrefixOf l₂ = true) : l₁ <+: l₂ :=
  Iff.mp List.isPrefixOf_iff_prefix h

theorem isPrefixOf_append_self (l t : List Char) : l.isPrefixOf (l ++ t) = true :=
  Iff.mpr List.isPrefixOf_iff_prefix ⟨t, rfl⟩

theorem countOcc_append_zero (pat : List Char) :
    ∀ (l t : List Char),
      (∀ c rest, (c :: rest) <:+ l → pat.isPrefixOf ((c :: rest) ++ t) = false) →
      countOcc pat (l ++ t) = countOcc pat t
  | [], _, _ => rfl
  | c :: rest, t, h => by
    rw [List.cons_append, countOcc]
    have hfst := h c rest ⟨[], rfl⟩
    rw [List.cons_append] at hfst
    rw [hfst]
    rw [countOcc_append_zero pat rest t
      (fun c' rest' hsuf => h c' rest' (hsuf.trans ⟨[c], rfl⟩))]
    simp

theorem countOcc_eq_zero_of_not_mem (pat : List Char) (ch : Char) (hp : ch ∈ pat) :
    ∀ t : List Char, ch ∉ t → countOcc pat t = 0
  | [], _ => rfl
  | c :: rest, ht => by
    rw [countOcc]
    have hni : pat.isPrefixOf (c :: rest) = false := by
      by_contra hb
      rw [Bool.not_eq_false] at hb
      exact ht ((isPrefixOfEq hb).sublist.subset hp)
    rw [hni,
      countOcc_eq_zero_of_not_mem pat ch hp rest (fun hm => ht (List.mem_cons_of_mem c hm))]
    simp

theorem countOcc_marker_append (t : List Char) :
    countOcc marker.data (marker.data ++ t) = 1 + countOcc marker.data t := by
  have step : countOcc marker.data (marker.data.tail ++ t) = countOcc marker.data t := by
    apply countOcc_append_zero
    intro c rest hsuf
    have hc : c ∈ marker.data.tail := hsuf.sublist.subset (by simp)
    have hcne : ('<' : Char) ≠ c := by
      intro he
      rw [← he] at hc
      exact absurd hc (by decide)
    have hred : marker.data.isPrefixOf (c :: (rest ++ t)) =
        (('<' == c) && ("!-- change8-action -->".data.isPrefixOf (rest ++ t))) := rfl
    rw [List.cons_append, hred, beq_eq_false_iff_ne.mpr hcne]
    rfl
  have hsplit : marker.data ++ t = '<' :: (marker.data.tail ++ t) := rfl
  rw [hsplit, countOcc]
  rw [show marker.data.isPrefixOf ('<' :: (marker.data.tail ++ t)) = true from
    isPrefixOf_append_self marker.data t]
  rw [step]
  simp

/-- No '!' character occurs in the string.  The marker contains a '!', so a
bang-free region of the comment can contain no marker occurrence. -/
def noBang (s : String) : Prop := '!' ∉ s.data

instance (s : String) : Decidable (noBang s) :=
  inferInstanceAs (Decidable ('!' ∉ s.data))

theorem noBang_append {a b : String} (ha : noBang a) (hb : noBang b) : noBang (a ++ b) := by
  unfold noBang at *
  rw [String.data_append]
  intro h
  rcases List.mem_append.mp h with h | h
  · exact ha h
  · exact hb h

theorem noBang_strConcat {l : List String} (h : ∀ s ∈ l, noBang s) :
    noBang (strConcat l) := by
  induction l with
  | nil => intro hx; simp [strConcat] at hx
  | cons x xs ih =>
    rw [strConcat]
    exact noBang_append (h x (by simp)) (ih (fun s hs => h s (List.mem_cons_of_mem x hs)))

theorem noBang_take {s : String} (h : noBang s) (n : Nat) : noBang (jsSubstringTo s n) := by
  intro hx
  exact h ((List.take_sublist n s.data).subset hx)

theorem digitChar_ne_bang (d : Nat) : Nat.digitChar d ≠ '!' := by
  match d with
  | 0 => decide
  | 1 => decide
  | 2 => decide
  | 3 => decide
  | 4 => decide
  | 5 => decide
  | 6 => decide
  | 7 => decide
  | 8 => decide
  | 9 => decide
  | 10 => decide
  | 11 => decide
  | 12 => decide
  | 13 => decide
  | 14 => decide
  | 15 => decide
  | n + 16 => exact show ('*' : Char) ≠ '!' by decide

theorem toDigitsCore_ne_bang (b : Nat) :
    ∀ (f n : Nat) (acc : List Char), (∀ ch ∈ acc, ch ≠ '!') →
      ∀ ch ∈ Nat.toDigitsCore b f n acc, ch ≠ '!'
  | 0, _, _, hacc => fun ch hch => hacc ch hch
  | f + 1, n, acc, hacc => by
    rw [Nat.toDigitsCore]
    split
    · intro ch hch
      rcases List.mem_cons.mp hch with h | h
      · rw [h]; exact digitChar_ne_bang _
      · exact hacc ch h
    · exact toDigitsCore_ne_bang b f (n / b) _ (by
        intro ch hch
        rcases List.mem_cons.mp hch with h | h
        · rw [h]; exact digitChar_ne_bang _
        · exact hacc ch h)

theorem noBang_natRepr (n : Nat) : noBang (Nat.repr n) := by
  intro hx
  exact toDigitsCore_ne_bang 10 (n + 1) n [] (by intro ch h; simp at h) '!' hx rfl

/-- Bang-freeness of one string, as a computable check. -/
def bangFree (s : String) : Bool := !(decide ('!' ∈ s.data))

theorem noBang_of_bangFree {s : String} (h : bangFree s = true) : noBang s := by
  unfold bangFree at h
  rw [Bool.not_eq_true'] at h
  exact of_decide_eq_false h

/-- All rendered fields of one result are bang-free. -/
def cleanResult (r : BreakingResult) : Bool :=
  bangFree r.package && bangFree r.fromVersion && bangFree r.toVersion &&
    bangFree r.migrationUrl &&
    r.breakingChanges.all (fun bc => bangFree bc.change &&
      (match bc.fix with | some f => bangFree f | none => true))

theorem noBang_renderRow {bc : BreakingChange}
    (h : (bangFree bc.change &&
      (match bc.fix with | some f => bangFree f | none => true)) = true) :
    noBang (renderRow bc) := by
  rw [Bool.and_eq_true] at h
  have hc : noBang bc.change := noBang_of_bangFree h.1
  unfold renderRow
  dsimp only
  refine noBang_append (noBang_append (noBang_append (noBang_append (by decide) ?_)
    (by decide)) ?_) (by decide)
  · exact noBang_append (noBang_take hc 80) (by split <;> decide)
  · cases hfx : bc.fix with
    | none => decide
    | some f =>
      have hf : noBang f := noBang_of_bangFree (by rw [hfx] at h; exact h.2)
      dsimp only
      split
      · decide
      · exact noBang_append (noBang_take hf 60) (by split <;> decide)

theorem noBang_renderSection {r : BreakingResult} (h : cleanResult r = true) :
    noBang (renderSection r) := by
  unfold cleanResult at h
  simp only [Bool.and_eq_true] at h
  obtain ⟨⟨⟨⟨hp, hfv⟩, htv⟩, hu⟩, hall⟩ := h
  unfold renderSection
  refine noBang_append (noBang_append (noBang_append ?_ ?_) ?_) ?_
  · unfold sectionHeader
    exact noBang_append (noBang_append (noBang_append (noBang_append (noBang_append
      (noBang_append (by decide) (noBang_of_bangFree hp)) (by decide))
      (noBang_of_bangFree hfv)) (by decide)) (noBang_of_bangFree htv)) (by decide)
  · unfold sectionCount
    exact noBang_append (noBang_append (by decide) (noBang_natRepr _)) (by decide)
  · split
    · unfold sectionTable
      refine noBang_append (noBang_append (by decide) ?_) (by decide)
      apply noBang_strConcat
      intro s hs
      rw [List.mem_map] at hs
      obtain ⟨bc, hbc, rfl⟩ := hs
      exact noBang_renderRow (List.all_eq_true.mp hall bc hbc)
    · decide
  · unfold sectionLink
    exact noBang_append (noBang_append (by decide) (noBang_of_bangFree hu)) (by decide)

def c6CexResults : List BreakingResult :=
  [⟨marker, "1.0", "2.0", [⟨"x", none⟩], "u"⟩]

set_option maxRecDepth 8192 in
/-- C6 counterexample: a result whose package field contains the marker text
makes the rendered comment contain the hidden marker twice, refuting the
exactly-once claim for arbitrary inputs. -/
theorem c6_counterexample :
    (∃ r ∈ c6CexResults, r.breakingChanges ≠ []) ∧
      countOcc marker.data (((generateComment c6CexResults).getD "").data) = 2 := by
  constructor
  · decide
  · decide

/-- C6 (amended): the formatter returns null iff every result has an empty
breakingChanges list; otherwise it returns a string that starts with the
hidden marker, and contains the marker exactly once provided no rendered
field of the results contains a '!' character (adversarial fields
containing the marker text can repeat it). -/
theorem c6_formatter_marker (results : List BreakingResult) :
    (generateComment results = none ↔ ∀ r ∈ results, r.breakingChanges = []) ∧
      (∀ s, generateComment results = some s →
        jsStartsWith s marker = true ∧
        (results.all cleanResult = true → countOcc marker.data s.data = 1)) := by
  constructor
  · unfold generateComment
    dsimp only
    split
    next hlen =>
      refine ⟨fun _ => ?_, fun _ => rfl⟩
      intro r hr
      rw [List.length_eq_zero] at hlen
      by_contra hbc
      have hmem : r ∈ results.filter (fun r => 0 < r.breakingChanges.length) :=
        List.mem_filter.mpr ⟨hr, by simpa using List.length_pos.mpr hbc⟩
      rw [hlen] at hmem
      simp at hmem
    next hlen =>
      constructor
      · intro h; simp at h
      · intro hall
        exfalso
        apply hlen
        rw [List.length_eq_zero, List.filter_eq_nil_iff]
        intro r hr
        simp [hall r hr]
  · intro s hout
    unfold generateComment at hout
    dsimp only at hout
    split at hout
    next hlen => simp at hout
    next hlen =>
      injection hout with hout
      subst hout
      have hdata : (commentIntro ++
            strConcat ((results.filter (fun r => 0 < r.breakingChanges.length)).map
              renderSection) ++ commentFooter).data =
          marker.data ++ (commentHeadline ++
            (strConcat ((results.filter (fun r => 0 < r.breakingChanges.length)).map
              renderSection) ++ commentFooter)).data := by
        simp [commentIntro, String.data_append, List.append_assoc]
      constructor
      · unfold jsStartsWith
        rw [hdata]
        exact isPrefixOf_append_self _ _
      · intro hclean
        rw [hdata, countOcc_marker_append]
        rw [countOcc_eq_zero_of_not_mem marker.data '!' (by decide) _ (by
          show noBang (commentHeadline ++
            (strConcat ((results.filter (fun r => 0 < r.breakingChanges.length)).map
              renderSection) ++ commentFooter))
          refine noBang_append (by decide) (noBang_append ?_ (by decide))
          apply noBang_strConcat
          intro x hx
          rw [List.mem_map] at hx
          obtain ⟨r, hr, rfl⟩ := hx
          exact noBang_renderSection
            (List.all_eq_true.mp hclean r (List.mem_filter.mp hr).1))]

def c6OkResults : List BreakingResult :=
  [⟨"langchain", "0.2.0", "1.0.0", [⟨"ChatOpenAI moved", some "Update import"⟩],
    "https://www.change8.dev/guides/langchain/migrating-to-1.0.0"⟩]

/-- Witness for C6 (amended): a realistic result yields a comment starting
with the marker and containing it exactly once. -/
theorem c6_witness :
    countOcc marker.data (((generateComment c6OkResults).getD "").data) = 1 ∧
      jsStartsWith ((generateComment c6OkResults).getD "") marker = true := by
  have h := (c6_formatter_marker c6OkResults).2 ((generateComment c6OkResults).getD "") rfl
  exact ⟨h.2 (by decide), h.1⟩
